import Mathlib

/-!
# domainomatic: the domain lifecycle of `main.go`

A shallow embedding of the three in-memory collections (`domains`,
`limboDomains`, `removedDomains`), of the two reconciliation loops, of the
nameserver check, of provisioning, of the submission handler and of the
line-delimited stores, followed by the properties proved about them.

Conventions of the embedding.

* A Go slice is a window `(backing array, len)`.  A `for i, x := range s` loop
  evaluates `s` once: it runs over the original length and reads cell `i` of
  the backing array at the start of iteration `i`.  Re-assigning `s` inside
  the loop, or decrementing `i`, does not change the iteration.
* A run-time panic (index or slice bounds out of range) is an explicit
  outcome that carries the in-memory state reached at the panic.
* The resolver, the provider and the clock are parameters.
* Timestamps are natural numbers; `clock i` is the value `time.Now()` returns
  in iteration `i` of a pass.
-/

namespace Domainomatic

/-! ## Data model -/

/-- Record of the active collection: `type Domain struct` of main.go. -/
structure Domain where
  Name : String
  NameserversCorrect : Bool
  LastChecked : Nat
  deriving DecidableEq, Repr

/-- The three package-level collections of main.go, as the slices they hold
between two passes. -/
structure State where
  domains : List Domain
  limboDomains : List String
  removedDomains : List String
  deriving DecidableEq, Repr

/-- Result of running a piece of code that may panic. -/
inductive Outcome (σ : Type) where
  | completed (s : σ)
  | panicked (s : σ)
  deriving DecidableEq, Repr

/-- Whether the code ran to completion. -/
def Outcome.isCompleted {σ : Type} : Outcome σ → Bool
  | .completed _ => true
  | .panicked _ => false

/-- The state carried by an outcome. -/
def Outcome.state {σ : Type} : Outcome σ → σ
  | .completed s => s
  | .panicked s => s

/-- Iterations `i, i+1, ..., i+k-1` of a `for i := range` loop; a panic in the
body ends the loop. -/
def forRange {σ : Type} (body : Nat → σ → Outcome σ) : Nat → Nat → σ → Outcome σ
  | _, 0, st => .completed st
  | i, k + 1, st =>
    match body i st with
    | .completed st' => forRange body (i + 1) k st'
    | .panicked st' => .panicked st'

/-- Effect of `s = append(s[:i], s[i+1:]...)` on the backing array `arr` of a
slice `s` of length `len`, for `i + 1 ≤ len`: cells `i .. len-2` receive cells
`i+1 .. len-1`, every other cell (the stale cell `len-1` included) is left as
it was.  The new length of `s` is `len - 1`. -/
def removeAt {α : Type} (arr : List α) (i len : Nat) : List α :=
  arr.take i ++ (arr.drop (i + 1)).take (len - (i + 1)) ++ arr.drop (len - 1)

/-! ## checkNameservers -/

/-- Resource record of an answer section: an NS record with its target, or a
record of another type. -/
inductive RR where
  | NS (Ns : String)
  | other (rrtype : Nat)
  deriving DecidableEq, Repr

/-- The part of `dns.Msg` the program reads. -/
structure Msg where
  Answer : List RR
  deriving DecidableEq, Repr

/-- Constant `expectedNameservers` of checkNameservers. -/
def expectedNameservers : List String :=
  ["ian.ns.cloudflare.com.", "vera.ns.cloudflare.com."]

/-- First loop of checkNameservers: the targets of the NS answers are appended
to `actualNameservers` in answer order. -/
def collectNameservers (answer : List RR) : List String :=
  answer.foldl
    (fun actualNameservers rr =>
      match rr with
      | .NS ns => actualNameservers ++ [ns]
      | .other _ => actualNameservers)
    []

/-- Second loop of checkNameservers, from index `i` on: `false` at the first
position where `actualNameservers[i] != ns`. -/
def compareNameservers (actualNameservers : List String) : Nat → List String → Bool
  | _, [] => true
  | i, ns :: rest =>
    if actualNameservers[i]? != some ns then false
    else compareNameservers actualNameservers (i + 1) rest

/-- Function `checkNameservers` of main.go; `getMsg` is the resolver lookup
`dig.GetMsg(dns.TypeNS, domain)`. -/
def checkNameservers (getMsg : String → Except String Msg) (domain : String) : Bool :=
  match getMsg domain with
  | .error _ => false
  | .ok msg =>
    let actualNameservers := collectNameservers msg.Answer
    if actualNameservers.length != expectedNameservers.length then false
    else compareNameservers actualNameservers 0 expectedNameservers

/-- The NS target of a record, if it is an NS record. -/
def nsTarget : RR → Option String
  | .NS ns => some ns
  | .other _ => none

/-! ## checkNameserversRoutine: one active-reconciliation pass -/

/-- Variables of one pass of checkNameserversRoutine: `arr` holds the cells of
the backing array of `domains` that the range loop reads (as many as the
length of `domains` when the pass starts), `len` is the current `len(domains)`;
the slice `domains` is `arr.take len`. -/
structure ActiveLoop where
  arr : List Domain
  len : Nat
  removedDomains : List String
  deriving DecidableEq, Repr

/-- Body of the range loop of checkNameserversRoutine at index `i`.  `verify`
is the outcome of `checkNameservers(name)` during the pass.  The eviction
branch appends to `removedDomains` and then evaluates `domains[i+1:]`, which
panics when `i + 1 > len(domains)`; the other branch writes `domains[i]`,
which panics when `i ≥ len(domains)`.  The statement `i--` has no effect. -/
def checkNameserversBody (verify : String → Bool) (clock : Nat → Nat) (i : Nat)
    (st : ActiveLoop) : Outcome ActiveLoop :=
  match st.arr[i]? with
  | none => .panicked st
  | some domain =>
    let correct := verify domain.Name
    if !correct && domain.NameserversCorrect then
      let st1 := { st with removedDomains := st.removedDomains ++ [domain.Name] }
      if i + 1 ≤ st.len then
        .completed { st1 with arr := removeAt st.arr i st.len, len := st.len - 1 }
      else .panicked st1
    else
      if i < st.len then
        .completed { st with
          arr := st.arr.set i
            { domain with NameserversCorrect := correct, LastChecked := clock i } }
      else .panicked st

/-- The collections as left by the loop of checkNameserversRoutine. -/
def ActiveLoop.toState (s : State) (st : ActiveLoop) : State :=
  { s with domains := st.arr.take st.len, removedDomains := st.removedDomains }

/-- One iteration of the outer loop of checkNameserversRoutine, up to the
sleep: the range loop over `domains`. -/
def checkNameserversPass (verify : String → Bool) (clock : Nat → Nat) (s : State) :
    Outcome State :=
  match forRange (checkNameserversBody verify clock) 0 s.domains.length
      ⟨s.domains, s.domains.length, s.removedDomains⟩ with
  | .completed st => .completed (st.toState s)
  | .panicked st => .panicked (st.toState s)

/-! ## processLimboDomains: one pending-reconciliation pass -/

/-- Variables of one pass of processLimboDomains: `arr` holds the cells of the
backing array of `limboDomains` that the range loop reads, `len` is the current
`len(limboDomains)`; the slice `limboDomains` is `arr.take len`. -/
structure LimboLoop where
  arr : List String
  len : Nat
  domains : List Domain
  deriving DecidableEq, Repr

/-- Body of the range loop of processLimboDomains at index `i`.  `verify` and
`provision` are the outcomes of `checkNameservers(name)` and
`addDomainToCloudflare(name)` during the pass.  When both succeed the record
is appended to `domains` and then `limboDomains[i+1:]` is evaluated, which
panics when `i + 1 > len(limboDomains)`. -/
def processLimboBody (verify provision : String → Bool) (clock : Nat → Nat) (i : Nat)
    (st : LimboLoop) : Outcome LimboLoop :=
  match st.arr[i]? with
  | none => .panicked st
  | some domain =>
    if verify domain then
      if provision domain then
        let st1 := { st with
          domains := st.domains ++
            [{ Name := domain, NameserversCorrect := true, LastChecked := clock i }] }
        if i + 1 ≤ st.len then
          .completed { st1 with arr := removeAt st.arr i st.len, len := st.len - 1 }
        else .panicked st1
      else .completed st
    else .completed st

/-- The collections as left by the loop of processLimboDomains. -/
def LimboLoop.toState (s : State) (st : LimboLoop) : State :=
  { s with domains := st.domains, limboDomains := st.arr.take st.len }

/-- One iteration of the outer loop of processLimboDomains, up to the sleep:
the range loop over `limboDomains`. -/
def processLimboPass (verify provision : String → Bool) (clock : Nat → Nat) (s : State) :
    Outcome State :=
  match forRange (processLimboBody verify provision clock) 0 s.limboDomains.length
      ⟨s.limboDomains, s.limboDomains.length, s.domains⟩ with
  | .completed st => .completed (st.toState s)
  | .panicked st => .panicked (st.toState s)

/-- Between a first removal and the end of the pass, every cell that the loop
has still to read at or after position `len - 1` holds the last name. -/
def StaleTail (last : String) (i : Nat) (st : LimboLoop) : Prop :=
  ∀ j, i ≤ j → st.len ≤ j + 1 → j < st.arr.length → st.arr[j]? = some last

/-! ## handleSubmit -/

/-- The part of `http.Request` that handleSubmit reads. -/
structure Request where
  Method : String
  /-- Whether `r.ParseForm()` returns an error. -/
  parseFormFails : Bool
  /-- The parsed form, as key and value pairs in order. -/
  Form : List (String × String)
  deriving DecidableEq, Repr

/-- Method `r.FormValue(key)`: the first value of the key, the empty string
when the key is absent. -/
def Request.FormValue (r : Request) (key : String) : String :=
  match r.Form.find? (fun kv => kv.1 == key) with
  | some kv => kv.2
  | none => ""

/-- What handleSubmit writes to the `http.ResponseWriter`. -/
inductive Response where
  | error (msg : String) (code : Nat)
  | redirect (url : String) (code : Nat)
  | page
  deriving DecidableEq, Repr

/-- Constant `http.StatusBadRequest`. -/
def StatusBadRequest : Nat := 400

/-- Constant `http.StatusSeeOther`. -/
def StatusSeeOther : Nat := 303

/-- Function `handleSubmit` of main.go. -/
def handleSubmit (r : Request) (s : State) : Response × State :=
  if r.Method == "POST" then
    if r.parseFormFails then
      (.error "Error parsing form" StatusBadRequest, s)
    else
      let domain := r.FormValue "domain"
      if domain == "" then
        (.error "Domain is required" StatusBadRequest, s)
      else
        (.redirect "/" StatusSeeOther, { s with limboDomains := s.limboDomains ++ [domain] })
  else
    (.page, s)

/-- Function `handleDomainsJSON` of main.go: the exported records. -/
def handleDomainsJSON (s : State) : List Domain :=
  s.domains

/-! ## addDomainToCloudflare and addDNSRecord -/

/-- The fields of `cloudflare.CreateDNSRecordParams` that addDNSRecord sets
(`RecordType` is the field `Type`). -/
structure CreateDNSRecordParams where
  RecordType : String
  Name : String
  Content : String
  TTL : Int
  Proxied : Bool
  deriving DecidableEq, Repr

/-- One call `api.CreateDNSRecord(ctx, cloudflare.ZoneIdentifier(zoneID),
recordParams)`. -/
structure CreateDNSRecordCall where
  zoneID : String
  recordParams : CreateDNSRecordParams
  deriving DecidableEq, Repr

/-- What addDomainToCloudflare receives from outside the program: the results
of `cloudflare.NewWithAPIToken`, of `api.CreateZone` (the zone ID), of opening
`master.zone` and reading it with `reader.ReadAll()`, and of
`api.CreateDNSRecord` (which may depend on the calls made before), and the
library functions `strconv.Atoi` and `strconv.ParseBool`. -/
structure Provider where
  NewWithAPIToken : Except String Unit
  CreateZone : String → Except String String
  ReadAll : Except String (List (List String))
  CreateDNSRecord : List CreateDNSRecordCall → CreateDNSRecordCall → Except String Unit
  Atoi : String → Option Int
  ParseBool : String → Option Bool

/-- Function `readMasterZoneFile` of main.go: a first row whose first field is
`type` is a header and is dropped.  The csv reader returns no row without
fields, so that `records[0][0]` is always in range. -/
def readMasterZoneFile (api : Provider) : Except String (List (List String)) :=
  match api.ReadAll with
  | .error err => .error err
  | .ok records =>
    match records with
    | (first :: _) :: rest => if first == "type" then .ok rest else .ok records
    | _ => .ok records

/-- Function `addDNSRecord` of main.go; `calls` is the list of record-creation
calls made so far, returned with the call of this row appended when one is
made. -/
def addDNSRecord (api : Provider) (zoneID : String) (record : List String)
    (calls : List CreateDNSRecordCall) : Except String Unit × List CreateDNSRecordCall :=
  match record with
  | [recordType, name, content, ttlField, proxiedField] =>
    match api.Atoi ttlField with
    | none => (.error ("invalid TTL: " ++ ttlField), calls)
    | some ttl =>
      match api.ParseBool proxiedField with
      | none => (.error ("invalid proxied value: " ++ proxiedField), calls)
      | some proxied =>
        let call : CreateDNSRecordCall :=
          { zoneID := zoneID,
            recordParams :=
              { RecordType := recordType, Name := name, Content := content,
                TTL := ttl, Proxied := proxied } }
        match api.CreateDNSRecord calls call with
        | .error e => (.error ("error creating DNS record: " ++ e), calls ++ [call])
        | .ok _ => (.ok (), calls ++ [call])
  | _ => (.error "invalid record format", calls)

/-- Function `addDomainToCloudflare` of main.go: the result and the
record-creation calls made, in order. -/
def addDomainToCloudflare (api : Provider) (domain : String) :
    Bool × List CreateDNSRecordCall :=
  match api.NewWithAPIToken with
  | .error _ => (false, [])
  | .ok _ =>
    match api.CreateZone domain with
    | .error _ => (false, [])
    | .ok zoneID =>
      match readMasterZoneFile api with
      | .error _ => (false, [])
      | .ok records =>
        (true, records.foldl (fun calls record => (addDNSRecord api zoneID record calls).2) [])

/-- The record-creation call of a table row, as the row checks are worded: the
row has exactly 5 fields, field 3 parses as an integer and field 4 parses as a
boolean. -/
def rowCall (api : Provider) (zoneID : String) (record : List String) :
    Option CreateDNSRecordCall :=
  if record.length = 5 then
    match api.Atoi (record.getD 3 ""), api.ParseBool (record.getD 4 "") with
    | some ttl, some proxied =>
      some { zoneID := zoneID,
             recordParams :=
               { RecordType := record.getD 0 "", Name := record.getD 1 "",
                 Content := record.getD 2 "", TTL := ttl, Proxied := proxied } }
    | _, _ => none
  else none

/-- Digits of a decimal literal, most significant first. -/
def goAtoiDigits : List Char → Nat → Option Nat
  | [], acc => some acc
  | c :: cs, acc =>
    if c.isDigit then goAtoiDigits cs (10 * acc + (c.toNat - 48)) else none

/-- Model of `strconv.Atoi` of the Go standard library on a 64-bit platform: an
optional sign, at least one decimal digit, a value that fits in `int`. -/
def goAtoi (s : String) : Option Int :=
  match s.data with
  | [] => none
  | '-' :: cs =>
    if cs = [] then none
    else (goAtoiDigits cs 0).bind (fun n => if n ≤ 2 ^ 63 then some (-(n : Int)) else none)
  | '+' :: cs =>
    if cs = [] then none
    else (goAtoiDigits cs 0).bind (fun n => if n < 2 ^ 63 then some (n : Int) else none)
  | cs => (goAtoiDigits cs 0).bind (fun n => if n < 2 ^ 63 then some (n : Int) else none)

/-- Model of `strconv.ParseBool` of the Go standard library. -/
def goParseBool (s : String) : Option Bool :=
  if s ∈ ["1", "t", "T", "TRUE", "true", "True"] then some true
  else if s ∈ ["0", "f", "F", "FALSE", "false", "False"] then some false
  else none

/-- The record table of the example: three valid rows and one row whose TTL is
not a number. -/
def exampleRecords : List (List String) :=
  [["A", "@", "192.0.2.1", "300", "true"],
   ["CNAME", "www", "example.net", "auto", "false"],
   ["MX", "@", "mail.example.net", "3600", "false"],
   ["TXT", "@", "v=spf1 -all", "1", "0"]]

/-- A provider that creates the client and the zone, reads a header row
followed by `exampleRecords`, and refuses every record. -/
def exampleProvider : Provider :=
  { NewWithAPIToken := .ok (),
    CreateZone := fun _ => .ok "zone-1",
    ReadAll := .ok (["type", "name", "content", "ttl", "proxied"] :: exampleRecords),
    CreateDNSRecord := fun _ _ => .error "record already exists",
    Atoi := goAtoi,
    ParseBool := goParseBool }

/-! ## The line-delimited stores -/

/-- Constant `bufio.MaxScanTokenSize`. -/
def MaxScanTokenSize : Nat := 64 * 1024

/-- Number of bytes of the UTF-8 encoding of a sequence of characters. -/
def byteLen (cs : List Char) : Nat :=
  (cs.map (fun c => c.utf8Size)).sum

/-- Function `dropCR` of package bufio: a trailing carriage return is cut. -/
def dropCR (line : List Char) : List Char :=
  if line.getLast? = some '\r' then line.dropLast else line

/-- Model of the loop `for scanner.Scan() { ... scanner.Text() ... }` over a
`bufio.Scanner` with the default split function `ScanLines` and the default
buffer limit: the tokens returned, in order.  `cur` is the part of the current
line read so far.  A line ends at a newline; its token is the line without a
trailing carriage return; a last line without newline is a token when it is
not empty; scanning stops (with `ErrTooLong`) when `MaxScanTokenSize` bytes
hold no newline. -/
def scanLines : List Char → List Char → List String
  | [], cur => if cur = [] then [] else [String.mk (dropCR cur)]
  | c :: rest, cur =>
    if c = '\n' then String.mk (dropCR cur) :: scanLines rest []
    else if MaxScanTokenSize ≤ byteLen (cur ++ [c]) then []
    else scanLines rest (cur ++ [c])

/-- Function `saveLimboDomains` of main.go: the content written to
`limbo_domains.txt`, one `fmt.Fprintln(writer, domain)` per name. -/
def saveLimboDomains (limboDomains : List String) : String :=
  limboDomains.foldl (fun writer domain => writer ++ domain ++ "\n") ""

/-- Function `loadLimboDomains` of main.go on a file that opens: every token of
the scanner is appended to `limboDomains`. -/
def loadLimboDomains (file : String) (limboDomains : List String) : List String :=
  (scanLines file.data []).foldl (fun limboDomains text => limboDomains ++ [text]) limboDomains

/-- Function `saveRemovedDomains` of main.go: the content written to
`removed_domains.txt`. -/
def saveRemovedDomains (removedDomains : List String) : String :=
  removedDomains.foldl (fun writer domain => writer ++ domain ++ "\n") ""

/-- Function `loadRemovedDomains` of main.go on a file that opens. -/
def loadRemovedDomains (file : String) (removedDomains : List String) : List String :=
  (scanLines file.data []).foldl (fun removedDomains text => removedDomains ++ [text])
    removedDomains

/-- A name that a line of a store holds unchanged: no newline in it, no
carriage return at its end, fewer bytes than `MaxScanTokenSize`. -/
def LineSafe (name : String) : Prop :=
  '\n' ∉ name.data ∧ name.data.getLast? ≠ some '\r' ∧ byteLen name.data < MaxScanTokenSize

/-! ## Operations on the in-memory state -/

/-- The state with three empty collections. -/
def emptyState : State :=
  { domains := [], limboDomains := [], removedDomains := [] }

/-- The names of the active records. -/
def State.activeNames (s : State) : List String :=
  s.domains.map (fun d => d.Name)

/-- One operation on the in-memory state: a request to handleSubmit, one
pass of processLimboDomains, one pass of checkNameserversRoutine; a pass that
panics leaves the state reached at the panic. -/
inductive Step : State → State → Prop where
  | submit (r : Request) (s : State) : Step s (handleSubmit r s).2
  | limbo (verify provision : String → Bool) (clock : Nat → Nat) (s : State) :
      Step s (processLimboPass verify provision clock s).state
  | active (verify : String → Bool) (clock : Nat → Nat) (s : State) :
      Step s (checkNameserversPass verify clock s).state

/-- States reached from `s₀` by any sequence of operations. -/
def Reachable (s₀ s : State) : Prop :=
  Relation.ReflTransGen Step s₀ s

/-- No name is at the same time pending and the name of an active record. -/
def PendingActiveDisjoint (s : State) : Prop :=
  ∀ name, name ∈ s.limboDomains → name ∉ s.activeNames

/-- Every active record has `NameserversCorrect = true`. -/
def AllCorrect (domains : List Domain) : Prop :=
  ∀ d, d ∈ domains → d.NameserversCorrect = true

/-- One operation of a run without resubmission: a request to handleSubmit
whose name is neither pending nor active at that time, a pass of
processLimboDomains that runs to completion, or a pass of
checkNameserversRoutine. -/
inductive FreshStep : State → State → Prop where
  | submit (r : Request) (s : State)
      (hp : r.FormValue "domain" ∉ s.limboDomains)
      (ha : r.FormValue "domain" ∉ s.activeNames) : FreshStep s (handleSubmit r s).2
  | limbo (verify provision : String → Bool) (clock : Nat → Nat) (s s' : State)
      (h : processLimboPass verify provision clock s = .completed s') : FreshStep s s'
  | active (verify : String → Bool) (clock : Nat → Nat) (s : State) :
      FreshStep s (checkNameserversPass verify clock s).state

/-- States reached from `s₀` by operations without resubmission and without
a panic of processLimboDomains. -/
def FreshReachable (s₀ s : State) : Prop :=
  Relation.ReflTransGen FreshStep s₀ s

/-! ## Properties of checkNameservers -/

theorem collectNameservers_foldl (answer : List RR) (acc : List String) :
    answer.foldl
      (fun actualNameservers rr =>
        match rr with
        | .NS ns => actualNameservers ++ [ns]
        | .other _ => actualNameservers)
      acc = acc ++ answer.filterMap nsTarget := by
  induction answer generalizing acc with
  | nil => simp
  | cons rr rest ih =>
    cases rr with
    | NS ns => simp [List.foldl_cons, ih, nsTarget]
    | other t => simp [List.foldl_cons, ih, nsTarget]

theorem collectNameservers_eq_filterMap (answer : List RR) :
    collectNameservers answer = answer.filterMap nsTarget := by
  unfold collectNameservers
  rw [collectNameservers_foldl]
  simp

theorem compareNameservers_expected (actual : List String) (h : actual.length = 2) :
    compareNameservers actual 0 expectedNameservers = true ↔ actual = expectedNameservers := by
  match actual, h with
  | [x, y], _ =>
    simp only [expectedNameservers, compareNameservers]
    by_cases hx : x = "ian.ns.cloudflare.com." <;> by_cases hy : y = "vera.ns.cloudflare.com." <;>
      simp [hx, hy]

theorem checkNameservers_ok (getMsg : String → Except String Msg) (domain : String) (msg : Msg)
    (h : getMsg domain = .ok msg) :
    checkNameservers getMsg domain = true ↔
      msg.Answer.filterMap nsTarget = expectedNameservers := by
  unfold checkNameservers
  rw [h]
  simp only [collectNameservers_eq_filterMap]
  by_cases hl : (msg.Answer.filterMap nsTarget).length = 2
  · have := compareNameservers_expected _ hl
    simp [hl, expectedNameservers] at this ⊢
    exact this
  · have hne : msg.Answer.filterMap nsTarget ≠ expectedNameservers := by
      intro heq
      apply hl
      rw [heq]
      rfl
    simp [hl, hne, expectedNameservers]
    intro heq
    apply hl
    rw [heq]
    rfl

/-- C1: checkNameservers returns true exactly when the lookup returns no error
and the NS targets of the answer section, in answer order, are the list
ian.ns.cloudflare.com., vera.ns.cloudflare.com.; so a lookup error, a list of
another length and the two names in reversed order all give false. -/
theorem checkNameservers_iff (getMsg : String → Except String Msg) (domain : String) :
    (checkNameservers getMsg domain = true ↔
      ∃ msg, getMsg domain = .ok msg ∧
        msg.Answer.filterMap nsTarget = ["ian.ns.cloudflare.com.", "vera.ns.cloudflare.com."]) ∧
    (∀ e, getMsg domain = .error e → checkNameservers getMsg domain = false) ∧
    (∀ msg, getMsg domain = .ok msg → (msg.Answer.filterMap nsTarget).length ≠ 2 →
      checkNameservers getMsg domain = false) ∧
    (∀ msg, getMsg domain = .ok msg →
      msg.Answer.filterMap nsTarget = ["vera.ns.cloudflare.com.", "ian.ns.cloudflare.com."] →
      checkNameservers getMsg domain = false) := by
  refine ⟨?_, ?_, ?_, ?_⟩
  · constructor
    · intro h
      cases hg : getMsg domain with
      | error e => simp [checkNameservers, hg] at h
      | ok msg => exact ⟨msg, rfl, (checkNameservers_ok getMsg domain msg hg).mp h⟩
    · rintro ⟨msg, hg, hl⟩
      exact (checkNameservers_ok getMsg domain msg hg).mpr hl
  · intro e hg
    simp [checkNameservers, hg]
  · intro msg hg hl
    cases hc : checkNameservers getMsg domain with
    | false => rfl
    | true =>
      exfalso
      apply hl
      rw [(checkNameservers_ok getMsg domain msg hg).mp hc]
      rfl
  · intro msg hg hl
    cases hc : checkNameservers getMsg domain with
    | false => rfl
    | true =>
      have := (checkNameservers_ok getMsg domain msg hg).mp hc
      rw [hl] at this
      exact absurd this (by decide)

/-- Witness of C1: a resolver that answers with a CNAME-like record between the
two expected NS records verifies, and the lookup of another name fails. -/
theorem checkNameservers_iff_witness :
    checkNameservers
        (fun d => if d = "example.com" then
            .ok ⟨[.NS "ian.ns.cloudflare.com.", .other 5, .NS "vera.ns.cloudflare.com."]⟩
          else .error "NXDOMAIN") "example.com" = true ∧
      checkNameservers
        (fun d => if d = "example.com" then
            .ok ⟨[.NS "ian.ns.cloudflare.com.", .other 5, .NS "vera.ns.cloudflare.com."]⟩
          else .error "NXDOMAIN") "example.org" = false :=
  ⟨(checkNameservers_iff _ "example.com").1.mpr
      ⟨⟨[.NS "ian.ns.cloudflare.com.", .other 5, .NS "vera.ns.cloudflare.com."]⟩, by simp,
        by decide⟩,
   (checkNameservers_iff _ "example.org").2.1 "NXDOMAIN" (by simp)⟩

/-! ## Properties of handleSubmit -/

/-- C5: for a POST whose form parses, handleSubmit answers 400 exactly when the
domain value is empty and then leaves the collections unchanged; for a
non-empty name it appends the name to the pending collection, leaves the
active and removed collections unchanged and redirects to /. -/
theorem handleSubmit_post (r : Request) (s : State)
    (hm : r.Method = "POST") (hp : r.parseFormFails = false) :
    ((∃ msg, (handleSubmit r s).1 = .error msg 400) ↔ r.FormValue "domain" = "") ∧
    (r.FormValue "domain" = "" → (handleSubmit r s).2 = s) ∧
    (r.FormValue "domain" ≠ "" →
      (handleSubmit r s).1 = .redirect "/" 303 ∧
      (handleSubmit r s).2.limboDomains = s.limboDomains ++ [r.FormValue "domain"] ∧
      (handleSubmit r s).2.domains = s.domains ∧
      (handleSubmit r s).2.removedDomains = s.removedDomains) := by
  by_cases hd : r.FormValue "domain" = ""
  · simp [handleSubmit, hm, hp, hd, StatusBadRequest]
  · simp [handleSubmit, hm, hp, hd, StatusSeeOther]

/-- Witness of C5: submitting example.com to a pending collection that holds
it already appends it once more. -/
theorem handleSubmit_post_witness :
    (handleSubmit ⟨"POST", false, [("domain", "example.com")]⟩
        ⟨[], ["example.com"], []⟩).2.limboDomains = ["example.com", "example.com"] :=
  ((handleSubmit_post ⟨"POST", false, [("domain", "example.com")]⟩
      ⟨[], ["example.com"], []⟩ rfl rfl).2.2 (by decide)).2.1

/-! ## Properties of addDomainToCloudflare -/

theorem addDNSRecord_calls (api : Provider) (zoneID : String) (record : List String)
    (calls : List CreateDNSRecordCall) :
    (addDNSRecord api zoneID record calls).2 = calls ++ (rowCall api zoneID record).toList := by
  rcases record with _ | ⟨a, _ | ⟨b, _ | ⟨c, _ | ⟨d, _ | ⟨e, _ | ⟨f, rest⟩⟩⟩⟩⟩⟩ <;>
    simp [addDNSRecord, rowCall]
  cases hd : api.Atoi d with
  | none => simp
  | some ttl =>
    cases he : api.ParseBool e with
    | none => simp
    | some proxied =>
      simp only []
      split <;> simp

theorem addDNSRecord_foldl (api : Provider) (zoneID : String) (records : List (List String))
    (calls : List CreateDNSRecordCall) :
    records.foldl (fun calls record => (addDNSRecord api zoneID record calls).2) calls =
      calls ++ records.filterMap (rowCall api zoneID) := by
  induction records generalizing calls with
  | nil => simp
  | cons record rest ih =>
    rw [List.foldl_cons, ih, addDNSRecord_calls]
    cases h : rowCall api zoneID record <;> simp [List.filterMap_cons, h]

/-- C6: when the client and the zone are created and the table loads,
addDomainToCloudflare returns true whatever the record-creation calls answer,
and the calls made are, in table order, one for each row with exactly 5 fields
whose TTL parses as an integer and whose proxied value parses as a boolean,
none for the other rows; when zone creation fails the result is false and no
call is made. -/
theorem addDomainToCloudflare_rows (api : Provider) (domain : String) :
    (∀ zoneID records, api.NewWithAPIToken = .ok () → api.CreateZone domain = .ok zoneID →
      readMasterZoneFile api = .ok records →
      addDomainToCloudflare api domain = (true, records.filterMap (rowCall api zoneID))) ∧
    (∀ e, api.CreateZone domain = .error e → addDomainToCloudflare api domain = (false, [])) := by
  constructor
  · intro zoneID records hc hz hr
    simp [addDomainToCloudflare, hc, hz, hr, addDNSRecord_foldl]
  · intro e hz
    unfold addDomainToCloudflare
    cases api.NewWithAPIToken <;> simp [hz]

/-- Witness of C6: three valid rows and one row with a non-numeric TTL, with a
provider that refuses every record: the result is true and three calls are
made. -/
theorem addDomainToCloudflare_rows_witness :
    (addDomainToCloudflare exampleProvider "example.com").1 = true ∧
    (addDomainToCloudflare exampleProvider "example.com").2.length = 3 := by
  rw [(addDomainToCloudflare_rows exampleProvider "example.com").1 "zone-1"
    exampleRecords rfl rfl rfl]
  decide

/-! ## Properties of the line-delimited stores -/

theorem byteLen_append (a b : List Char) : byteLen (a ++ b) = byteLen a + byteLen b := by
  simp [byteLen]

theorem dropCR_eq_self (line : List Char) (h : line.getLast? ≠ some '\r') : dropCR line = line := by
  simp [dropCR, h]

theorem scanLines_line (line rest cur : List Char) (hn : '\n' ∉ line)
    (hb : byteLen (cur ++ line) < MaxScanTokenSize) :
    scanLines (line ++ '\n' :: rest) cur = String.mk (dropCR (cur ++ line)) :: scanLines rest [] := by
  induction line generalizing cur with
  | nil => simp [scanLines]
  | cons c line ih =>
    have hc : c ≠ '\n' := fun h => hn (by simp [h])
    have hl : '\n' ∉ line := fun h => hn (by simp [h])
    have hb' : byteLen ((cur ++ [c]) ++ line) < MaxScanTokenSize := by simpa using hb
    have hs : ¬ MaxScanTokenSize ≤ byteLen (cur ++ [c]) := by
      rw [byteLen_append] at hb'
      omega
    have := ih (cur ++ [c]) hl hb'
    simp only [List.cons_append, scanLines, hc, hs, if_false]
    simpa using this

theorem saveLines_data (names : List String) (writer : String) :
    (names.foldl (fun writer domain => writer ++ domain ++ "\n") writer).data =
      writer.data ++ (names.map (fun n => n.data ++ ['\n'])).flatten := by
  induction names generalizing writer with
  | nil => simp
  | cons n rest ih =>
    rw [List.foldl_cons, ih]
    simp [String.data_append]

theorem scanLines_saved (names : List String) (h : ∀ n, n ∈ names → LineSafe n) :
    scanLines (names.map (fun n => n.data ++ ['\n'])).flatten [] = names := by
  induction names with
  | nil => simp [scanLines]
  | cons n rest ih =>
    obtain ⟨hn, hr, hb⟩ := h n (by simp)
    have hrest := ih (fun m hm => h m (by simp [hm]))
    simp only [List.map_cons, List.flatten_cons, List.append_assoc, List.singleton_append]
    rw [scanLines_line n.data _ [] hn (by simpa using hb), hrest]
    simp [dropCR_eq_self _ hr]

theorem appendAll_eq (tokens init : List String) :
    tokens.foldl (fun acc text => acc ++ [text]) init = init ++ tokens := by
  induction tokens generalizing init with
  | nil => simp
  | cons t rest ih => simp [List.foldl_cons, ih]

/-- Counterexample to C7: a pending collection that holds one name with a
newline in it is written as two lines and read back as two names. -/
theorem store_roundtrip_counterexample :
    loadLimboDomains (saveLimboDomains ["example.com\nexample.org"]) [] =
        ["example.com", "example.org"] ∧
      loadLimboDomains (saveLimboDomains ["example.com\nexample.org"]) [] ≠
        ["example.com\nexample.org"] := by
  decide

/-- C7, amended: for every list of names that hold no newline, do not end in a
carriage return and are shorter than the scanner limit of 64 KiB, writing the
list with saveLimboDomains (saveRemovedDomains) and reading the written file
into an empty collection with loadLimboDomains (loadRemovedDomains) gives the
original list. -/
theorem store_roundtrip (names : List String) (h : ∀ n, n ∈ names → LineSafe n) :
    loadLimboDomains (saveLimboDomains names) [] = names ∧
    loadRemovedDomains (saveRemovedDomains names) [] = names := by
  have key : scanLines
      (names.foldl (fun writer domain => writer ++ domain ++ "\n") "").data [] = names := by
    rw [saveLines_data]
    simpa using scanLines_saved names h
  constructor
  · unfold loadLimboDomains saveLimboDomains
    rw [key, appendAll_eq]
    simp
  · unfold loadRemovedDomains saveRemovedDomains
    rw [key, appendAll_eq]
    simp

/-- Witness of C7: two ordinary names, one of them the empty string. -/
theorem store_roundtrip_witness :
    (∀ n, n ∈ ["example.com", ""] → LineSafe n) ∧
      loadLimboDomains (saveLimboDomains ["example.com", ""]) [] = ["example.com", ""] ∧
      loadRemovedDomains (saveRemovedDomains ["example.com", ""]) [] = ["example.com", ""] :=
  have h : ∀ n, n ∈ ["example.com", ""] → LineSafe n := by
    intro n hn
    simp only [List.mem_cons, List.mem_singleton, List.not_mem_nil, or_false] at hn
    rcases hn with rfl | rfl <;> (unfold LineSafe; decide)
  ⟨h, store_roundtrip ["example.com", ""] h⟩

/-! ## The backing array under `append(s[:i], s[i+1:]...)` -/

theorem removeAt_length {α : Type} (arr : List α) (i len : Nat) (hi : i + 1 ≤ len)
    (hl : len ≤ arr.length) : (removeAt arr i len).length = arr.length := by
  simp only [removeAt, List.length_append, List.length_take, List.length_drop]
  omega

theorem removeAt_getElem?_shifted {α : Type} (arr : List α) (i len j : Nat) (hij : i ≤ j)
    (hj : j + 1 < len) (hl : len ≤ arr.length) :
    (removeAt arr i len)[j]? = arr[j + 1]? := by
  unfold removeAt
  have h1 : (arr.take i).length = i := by simp; omega
  have h2 : ((arr.drop (i + 1)).take (len - (i + 1))).length = len - (i + 1) := by simp; omega
  rw [List.getElem?_append_left (by simp only [List.length_append, h1, h2]; omega)]
  rw [List.getElem?_append_right (by omega)]
  rw [h1, List.getElem?_take_of_lt (by omega), List.getElem?_drop]
  congr 1
  omega

theorem removeAt_getElem?_tail {α : Type} (arr : List α) (i len j : Nat) (hi : i + 1 ≤ len)
    (hj : len ≤ j + 1) (hl : len ≤ arr.length) :
    (removeAt arr i len)[j]? = arr[j]? := by
  unfold removeAt
  have h1 : (arr.take i).length = i := by simp; omega
  have h2 : ((arr.drop (i + 1)).take (len - (i + 1))).length = len - (i + 1) := by simp; omega
  rw [List.getElem?_append_right (by simp only [List.length_append, h1, h2]; omega)]
  simp only [List.length_append, h1, h2, List.getElem?_drop]
  congr 1
  omega

theorem mem_of_mem_removeAt {α : Type} (arr : List α) (i len : Nat) (x : α)
    (h : x ∈ removeAt arr i len) : x ∈ arr := by
  simp only [removeAt, List.mem_append] at h
  rcases h with (h | h) | h
  · exact List.mem_of_mem_take h
  · exact List.mem_of_mem_drop (List.mem_of_mem_take h)
  · exact List.mem_of_mem_drop h

theorem removeAt_take {α : Type} (arr : List α) (i len : Nat) (hi : i + 1 ≤ len)
    (hl : len ≤ arr.length) :
    (removeAt arr i len).take (len - 1) = arr.take i ++ (arr.drop (i + 1)).take (len - (i + 1)) := by
  unfold removeAt
  have h1 : (arr.take i).length = i := by simp; omega
  have h2 : ((arr.drop (i + 1)).take (len - (i + 1))).length = len - (i + 1) := by simp; omega
  have h3 : len - 1 = (arr.take i ++ (arr.drop (i + 1)).take (len - (i + 1))).length := by
    simp only [List.length_append, h1, h2]; omega
  rw [h3, List.take_left]

/-! ## The loop of checkNameserversRoutine -/

theorem checkNameserversBody_evict (verify : String → Bool) (clock : Nat → Nat) (i : Nat)
    (st : ActiveLoop) (d : Domain) (hd : st.arr[i]? = some d) (hv : verify d.Name = false)
    (hf : d.NameserversCorrect = true) (hi : i + 1 ≤ st.len) :
    checkNameserversBody verify clock i st =
      .completed { arr := removeAt st.arr i st.len, len := st.len - 1,
                   removedDomains := st.removedDomains ++ [d.Name] } := by
  simp [checkNameserversBody, hd, hv, hf, hi]

theorem checkNameserversBody_keep (verify : String → Bool) (clock : Nat → Nat) (i : Nat)
    (st : ActiveLoop) (d : Domain) (hd : st.arr[i]? = some d)
    (hk : ¬ (verify d.Name = false ∧ d.NameserversCorrect = true)) (hi : i < st.len) :
    checkNameserversBody verify clock i st =
      .completed { st with
        arr := st.arr.set i
          { d with NameserversCorrect := verify d.Name, LastChecked := clock i } } := by
  have hk' : (!verify d.Name && d.NameserversCorrect) = false := by
    cases hv : verify d.Name <;> cases hf : d.NameserversCorrect <;> simp_all
  simp [checkNameserversBody, hd, hk', hi]

theorem checkNameserversBody_panics (verify : String → Bool) (clock : Nat → Nat) (i : Nat)
    (st : ActiveLoop) (hi : st.len ≤ i) :
    (checkNameserversBody verify clock i st).isCompleted = false := by
  unfold checkNameserversBody
  cases hd : st.arr[i]? with
  | none => rfl
  | some d =>
    have h1 : ¬ (i + 1 ≤ st.len) := by omega
    have h2 : ¬ (i < st.len) := by omega
    simp only [h1, h2, if_false]
    split <;> rfl

theorem checkNameservers_loop_short (verify : String → Bool) (clock : Nat → Nat) :
    ∀ (k i : Nat) (st : ActiveLoop), st.len < st.arr.length → i + k = st.arr.length → 0 < k →
      (forRange (checkNameserversBody verify clock) i k st).isCompleted = false := by
  intro k
  induction k with
  | zero => intro i st _ _ hk; omega
  | succ k ih =>
    intro i st hlen hik _
    have hi : i < st.arr.length := by omega
    have hd : st.arr[i]? = some st.arr[i] := List.getElem?_eq_getElem hi
    simp only [forRange]
    by_cases hb : st.len ≤ i
    · have hp := checkNameserversBody_panics verify clock i st hb
      cases hbody : checkNameserversBody verify clock i st with
      | completed st' => simp [hbody, Outcome.isCompleted] at hp
      | panicked st' => rfl
    · by_cases hev : verify st.arr[i].Name = false ∧ st.arr[i].NameserversCorrect = true
      · rw [checkNameserversBody_evict verify clock i st _ hd hev.1 hev.2 (by omega)]
        apply ih
        · simp only [removeAt_length st.arr i st.len (by omega) (by omega)]
          omega
        · simp only [removeAt_length st.arr i st.len (by omega) (by omega)]
          omega
        · omega
      · rw [checkNameserversBody_keep verify clock i st _ hd hev (by omega)]
        apply ih
        · simp only [List.length_set]
          omega
        · simp only [List.length_set]
          omega
        · omega

theorem checkNameservers_loop_completes (verify : String → Bool) (clock : Nat → Nat) :
    ∀ (k i : Nat) (st : ActiveLoop), st.len = st.arr.length → i + k = st.arr.length →
      (∀ j d, i ≤ j → j + 1 < st.arr.length → st.arr[j]? = some d →
        ¬ (verify d.Name = false ∧ d.NameserversCorrect = true)) →
      (forRange (checkNameserversBody verify clock) i k st).isCompleted = true := by
  intro k
  induction k with
  | zero => intro i st _ _ _; rfl
  | succ k ih =>
    intro i st hlen hik hno
    have hi : i < st.arr.length := by omega
    have hd : st.arr[i]? = some st.arr[i] := List.getElem?_eq_getElem hi
    simp only [forRange]
    by_cases hev : verify st.arr[i].Name = false ∧ st.arr[i].NameserversCorrect = true
    · have hlast : k = 0 := by
        by_contra hk
        exact hno i _ (le_refl i) (by omega) hd hev
      subst hlast
      rw [checkNameserversBody_evict verify clock i st _ hd hev.1 hev.2 (by omega)]
      rfl
    · rw [checkNameserversBody_keep verify clock i st _ hd hev (by omega)]
      apply ih
      · simp only [List.length_set]
        exact hlen
      · simp only [List.length_set]
        omega
      · intro j d hij hj hjd
        simp only [List.length_set] at hj
        have hne : i ≠ j := by omega
        simp only [List.getElem?_set_ne hne] at hjd
        exact hno j d (by omega) hj hjd

theorem checkNameservers_loop_panics (verify : String → Bool) (clock : Nat → Nat) :
    ∀ (k i : Nat) (st : ActiveLoop), st.len = st.arr.length → i + k = st.arr.length →
      (∃ j d, i ≤ j ∧ j + 1 < st.arr.length ∧ st.arr[j]? = some d ∧
        verify d.Name = false ∧ d.NameserversCorrect = true) →
      (forRange (checkNameserversBody verify clock) i k st).isCompleted = false := by
  intro k
  induction k with
  | zero =>
    intro i st _ hik h
    obtain ⟨j, d, hij, hj, _⟩ := h
    omega
  | succ k ih =>
    intro i st hlen hik h
    obtain ⟨j, d, hij, hj, hjd, hv, hf⟩ := h
    have hi : i < st.arr.length := by omega
    have hd : st.arr[i]? = some st.arr[i] := List.getElem?_eq_getElem hi
    simp only [forRange]
    by_cases hev : verify st.arr[i].Name = false ∧ st.arr[i].NameserversCorrect = true
    · rw [checkNameserversBody_evict verify clock i st _ hd hev.1 hev.2 (by omega)]
      apply checkNameservers_loop_short
      · simp only [removeAt_length st.arr i st.len (by omega) (by omega)]
        omega
      · simp only [removeAt_length st.arr i st.len (by omega) (by omega)]
        omega
      · omega
    · rw [checkNameserversBody_keep verify clock i st _ hd hev (by omega)]
      have hne : i ≠ j := by
        intro hij'
        subst hij'
        rw [hd] at hjd
        injection hjd with hjd
        subst hjd
        exact hev ⟨hv, hf⟩
      apply ih
      · simp only [List.length_set]
        exact hlen
      · simp only [List.length_set]
        omega
      · refine ⟨j, d, by omega, ?_, ?_, hv, hf⟩
        · simp only [List.length_set]
          exact hj
        · simp only [List.getElem?_set_ne hne]
          exact hjd

theorem checkNameserversPass_isCompleted (verify : String → Bool) (clock : Nat → Nat) (s : State) :
    (checkNameserversPass verify clock s).isCompleted =
      (forRange (checkNameserversBody verify clock) 0 s.domains.length
        ⟨s.domains, s.domains.length, s.removedDomains⟩).isCompleted := by
  unfold checkNameserversPass
  split <;> simp_all [Outcome.isCompleted]

/-- C8: one pass of checkNameserversRoutine over n records runs to completion
without a panic exactly when no record at an index below n - 1 has flag true
and fails verification. -/
theorem checkNameserversPass_completes_iff (verify : String → Bool) (clock : Nat → Nat)
    (s : State) :
    (checkNameserversPass verify clock s).isCompleted = true ↔
      ¬ ∃ j d, j + 1 < s.domains.length ∧ s.domains[j]? = some d ∧
        d.NameserversCorrect = true ∧ verify d.Name = false := by
  rw [checkNameserversPass_isCompleted]
  constructor
  · intro hc hex
    obtain ⟨j, d, hj, hjd, hf, hv⟩ := hex
    have := checkNameservers_loop_panics verify clock s.domains.length 0
      ⟨s.domains, s.domains.length, s.removedDomains⟩ rfl (by simp)
      ⟨j, d, Nat.zero_le j, hj, hjd, hv, hf⟩
    rw [this] at hc
    exact Bool.noConfusion hc
  · intro hno
    apply checkNameservers_loop_completes verify clock s.domains.length 0
      ⟨s.domains, s.domains.length, s.removedDomains⟩ rfl (by simp)
    intro j d _ hj hjd hev
    exact hno ⟨j, d, hj, hjd, hev.2, hev.1⟩

/-! ## The loop of processLimboDomains -/

theorem processLimboBody_graduate (verify provision : String → Bool) (clock : Nat → Nat)
    (i : Nat) (st : LimboLoop) (x : String) (hx : st.arr[i]? = some x)
    (hv : verify x = true) (hp : provision x = true) (hi : i + 1 ≤ st.len) :
    processLimboBody verify provision clock i st =
      .completed { arr := removeAt st.arr i st.len, len := st.len - 1,
                   domains := st.domains ++ [⟨x, true, clock i⟩] } := by
  simp [processLimboBody, hx, hv, hp, hi]

theorem processLimboBody_skip (verify provision : String → Bool) (clock : Nat → Nat)
    (i : Nat) (st : LimboLoop) (x : String) (hx : st.arr[i]? = some x)
    (hg : ¬ (verify x = true ∧ provision x = true)) :
    processLimboBody verify provision clock i st = .completed st := by
  unfold processLimboBody
  simp only [hx]
  cases hv : verify x <;> cases hp : provision x <;> simp_all

theorem processLimboBody_panic (verify provision : String → Bool) (clock : Nat → Nat)
    (i : Nat) (st : LimboLoop) (x : String) (hx : st.arr[i]? = some x)
    (hv : verify x = true) (hp : provision x = true) (hi : st.len ≤ i) :
    processLimboBody verify provision clock i st =
      .panicked { st with domains := st.domains ++ [⟨x, true, clock i⟩] } := by
  have h : ¬ (i + 1 ≤ st.len) := by omega
  simp [processLimboBody, hx, hv, hp, h]

theorem staleTail_removeAt (last : String) (i : Nat) (st : LimboLoop) (x : Domain)
    (hi : i + 1 ≤ st.len) (hl : st.len ≤ st.arr.length) (h : StaleTail last i st) :
    StaleTail last (i + 1)
      { arr := removeAt st.arr i st.len, len := st.len - 1, domains := st.domains ++ [x] } := by
  intro j hij hlen hj
  simp only [removeAt_length st.arr i st.len hi hl] at hj
  simp only at hlen
  by_cases hjl : j + 1 < st.len
  · simp only [removeAt_getElem?_shifted st.arr i st.len j (by omega) hjl hl]
    exact h (j + 1) (by omega) (by omega) (by omega)
  · simp only [removeAt_getElem?_tail st.arr i st.len j hi (by omega) hl]
    exact h j (by omega) (by omega) hj

theorem processLimbo_loop_short (verify provision : String → Bool) (clock : Nat → Nat)
    (last : String) (hv : verify last = true) (hp : provision last = true) :
    ∀ (k i : Nat) (st : LimboLoop), st.len < st.arr.length → i + k = st.arr.length → 0 < k →
      StaleTail last i st →
      ∃ st' pre t, forRange (processLimboBody verify provision clock) i k st = .panicked st' ∧
        st'.domains = st.domains ++ pre ++ [⟨last, true, t⟩] := by
  intro k
  induction k with
  | zero => intro i st _ _ hk; omega
  | succ k ih =>
    intro i st hlen hik _ hst
    have hi : i < st.arr.length := by omega
    have hx : st.arr[i]? = some st.arr[i] := List.getElem?_eq_getElem hi
    simp only [forRange]
    by_cases hg : verify st.arr[i] = true ∧ provision st.arr[i] = true
    · by_cases hb : i + 1 ≤ st.len
      · rw [processLimboBody_graduate verify provision clock i st _ hx hg.1 hg.2 hb]
        have hlen' := removeAt_length st.arr i st.len hb (by omega)
        obtain ⟨st', pre, t, hrun, hdom⟩ := ih (i + 1)
          { arr := removeAt st.arr i st.len, len := st.len - 1,
            domains := st.domains ++ [⟨st.arr[i], true, clock i⟩] }
          (by simp only [hlen']; omega) (by simp only [hlen']; omega) (by omega)
          (staleTail_removeAt last i st _ hb (by omega) hst)
        refine ⟨st', ⟨st.arr[i], true, clock i⟩ :: pre, t, hrun, ?_⟩
        rw [hdom]
        simp
      · have hlast : st.arr[i]? = some last := hst i (le_refl i) (by omega) hi
        rw [hx] at hlast
        injection hlast with hlast
        rw [processLimboBody_panic verify provision clock i st _ hx hg.1 hg.2 (by omega)]
        refine ⟨_, [], clock i, rfl, ?_⟩
        simp [hlast]
    · rw [processLimboBody_skip verify provision clock i st _ hx hg]
      have hk : 0 < k := by
        by_contra hk0
        have hlast : st.arr[i]? = some last := hst i (le_refl i) (by omega) hi
        rw [hx] at hlast
        injection hlast with hlast
        rw [hlast] at hg
        exact hg ⟨hv, hp⟩
      exact ih (i + 1) st hlen (by omega) hk
        (fun j hij hl hj => hst j (by omega) hl hj)

theorem processLimbo_loop_last_bad (verify provision : String → Bool) (clock : Nat → Nat)
    (last : String) (hbad : ¬ (verify last = true ∧ provision last = true)) :
    ∀ (k i : Nat) (st : LimboLoop), st.len ≤ st.arr.length → i + k = st.arr.length →
      StaleTail last i st →
      (forRange (processLimboBody verify provision clock) i k st).isCompleted = true := by
  intro k
  induction k with
  | zero => intro i st _ _ _; rfl
  | succ k ih =>
    intro i st hlen hik hst
    have hi : i < st.arr.length := by omega
    have hx : st.arr[i]? = some st.arr[i] := List.getElem?_eq_getElem hi
    simp only [forRange]
    by_cases hg : verify st.arr[i] = true ∧ provision st.arr[i] = true
    · have hb : i + 1 ≤ st.len := by
        by_contra hb
        have hlast : st.arr[i]? = some last := hst i (le_refl i) (by omega) hi
        rw [hx] at hlast
        injection hlast with hlast
        rw [hlast] at hg
        exact hbad hg
      rw [processLimboBody_graduate verify provision clock i st _ hx hg.1 hg.2 hb]
      have hlen' := removeAt_length st.arr i st.len hb hlen
      exact ih (i + 1) _ (by simp only [hlen']; omega) (by simp only [hlen']; omega)
        (staleTail_removeAt last i st _ hb hlen hst)
    · rw [processLimboBody_skip verify provision clock i st _ hx hg]
      exact ih (i + 1) st hlen (by omega) (fun j hij hl hj => hst j (by omega) hl hj)

theorem processLimbo_loop_no_early (verify provision : String → Bool) (clock : Nat → Nat) :
    ∀ (k i : Nat) (st : LimboLoop), st.len = st.arr.length → i + k = st.arr.length →
      (∀ j x, i ≤ j → j + 1 < st.arr.length → st.arr[j]? = some x →
        ¬ (verify x = true ∧ provision x = true)) →
      (forRange (processLimboBody verify provision clock) i k st).isCompleted = true := by
  intro k
  induction k with
  | zero => intro i st _ _ _; rfl
  | succ k ih =>
    intro i st hlen hik hno
    have hi : i < st.arr.length := by omega
    have hx : st.arr[i]? = some st.arr[i] := List.getElem?_eq_getElem hi
    simp only [forRange]
    by_cases hg : verify st.arr[i] = true ∧ provision st.arr[i] = true
    · have hlast : k = 0 := by
        by_contra hk
        exact hno i _ (le_refl i) (by omega) hx hg
      subst hlast
      rw [processLimboBody_graduate verify provision clock i st _ hx hg.1 hg.2 (by omega)]
      rfl
    · rw [processLimboBody_skip verify provision clock i st _ hx hg]
      exact ih (i + 1) st hlen (by omega) (fun j x hij hj hjx => hno j x (by omega) hj hjx)

theorem processLimbo_loop_early (verify provision : String → Bool) (clock : Nat → Nat)
    (last : String) (hv : verify last = true) (hp : provision last = true) :
    ∀ (k i : Nat) (st : LimboLoop), st.len = st.arr.length → i + k = st.arr.length →
      st.arr[st.arr.length - 1]? = some last →
      (∃ j x, i ≤ j ∧ j + 1 < st.arr.length ∧ st.arr[j]? = some x ∧
        verify x = true ∧ provision x = true) →
      ∃ st' pre t, forRange (processLimboBody verify provision clock) i k st = .panicked st' ∧
        st'.domains = st.domains ++ pre ++ [⟨last, true, t⟩] := by
  intro k
  induction k with
  | zero =>
    intro i st _ hik _ h
    obtain ⟨j, x, hij, hj, _⟩ := h
    omega
  | succ k ih =>
    intro i st hlen hik hlast h
    obtain ⟨j, x, hij, hj, hjx, hxv, hxp⟩ := h
    have hi : i < st.arr.length := by omega
    have hx : st.arr[i]? = some st.arr[i] := List.getElem?_eq_getElem hi
    simp only [forRange]
    by_cases hg : verify st.arr[i] = true ∧ provision st.arr[i] = true
    · have hb : i + 1 ≤ st.len := by omega
      rw [processLimboBody_graduate verify provision clock i st _ hx hg.1 hg.2 hb]
      have hlen' := removeAt_length st.arr i st.len hb (by omega)
      have hst : StaleTail last i st := by
        intro m _ hm hml
        have : m = st.arr.length - 1 := by omega
        rw [this]
        exact hlast
      obtain ⟨st', pre, t, hrun, hdom⟩ := processLimbo_loop_short verify provision clock last hv hp
        k (i + 1)
        { arr := removeAt st.arr i st.len, len := st.len - 1,
          domains := st.domains ++ [⟨st.arr[i], true, clock i⟩] }
        (by simp only [hlen']; omega) (by simp only [hlen']; omega) (by omega)
        (staleTail_removeAt last i st _ hb (by omega) hst)
      refine ⟨st', ⟨st.arr[i], true, clock i⟩ :: pre, t, hrun, ?_⟩
      rw [hdom]
      simp
    · rw [processLimboBody_skip verify provision clock i st _ hx hg]
      have hne : i ≠ j := by
        intro hij'
        subst hij'
        rw [hx] at hjx
        injection hjx with hjx
        rw [← hjx] at hxv hxp
        exact hg ⟨hxv, hxp⟩
      exact ih (i + 1) st hlen (by omega) hlast ⟨j, x, by omega, hj, hjx, hxv, hxp⟩

theorem staleTail_start (l : List String) (domains : List Domain) (last : String)
    (hlast : l[l.length - 1]? = some last) :
    StaleTail last 0 { arr := l, len := l.length, domains := domains } := by
  intro j _ hj hjl
  simp only at hj hjl
  have : j = l.length - 1 := by omega
  rw [this]
  exact hlast

theorem processLimboPass_panicked_iff (verify provision : String → Bool) (clock : Nat → Nat)
    (s s' : State) :
    processLimboPass verify provision clock s = .panicked s' ↔
      ∃ st, forRange (processLimboBody verify provision clock) 0 s.limboDomains.length
        ⟨s.limboDomains, s.limboDomains.length, s.domains⟩ = .panicked st ∧ s' = st.toState s := by
  unfold processLimboPass
  cases forRange (processLimboBody verify provision clock) 0 s.limboDomains.length
    ⟨s.limboDomains, s.limboDomains.length, s.domains⟩ with
  | completed st => simp
  | panicked st =>
    simp only [Outcome.panicked.injEq]
    constructor
    · intro h
      exact ⟨st, rfl, h.symm⟩
    · rintro ⟨st2, h, rfl⟩
      rw [h]

theorem processLimboPass_isCompleted (verify provision : String → Bool) (clock : Nat → Nat)
    (s : State) :
    (processLimboPass verify provision clock s).isCompleted =
      (forRange (processLimboBody verify provision clock) 0 s.limboDomains.length
        ⟨s.limboDomains, s.limboDomains.length, s.domains⟩).isCompleted := by
  unfold processLimboPass
  split <;> simp_all [Outcome.isCompleted]

theorem processLimboPass_panics_of (verify provision : String → Bool) (clock : Nat → Nat)
    (s : State) (last : String) (hl : s.limboDomains.getLast? = some last)
    (hv : verify last = true) (hp : provision last = true)
    (he : ∃ j x, j + 1 < s.limboDomains.length ∧ s.limboDomains[j]? = some x ∧
      verify x = true ∧ provision x = true) :
    ∃ s' pre t, processLimboPass verify provision clock s = .panicked s' ∧
      s'.domains = s.domains ++ pre ++ [⟨last, true, t⟩] := by
  obtain ⟨j, x, hj, hjx, hxv, hxp⟩ := he
  rw [List.getLast?_eq_getElem?] at hl
  obtain ⟨st', pre, t, hrun, hdom⟩ := processLimbo_loop_early verify provision clock last hv hp
    s.limboDomains.length 0 ⟨s.limboDomains, s.limboDomains.length, s.domains⟩ rfl (by simp) hl
    ⟨j, x, Nat.zero_le j, hj, hjx, hxv, hxp⟩
  refine ⟨st'.toState s, pre, t, ?_, ?_⟩
  · rw [processLimboPass_panicked_iff]
    exact ⟨st', hrun, rfl⟩
  · simpa [LimboLoop.toState] using hdom

theorem processLimboPass_conditions_of_panic (verify provision : String → Bool)
    (clock : Nat → Nat) (s : State)
    (h : (processLimboPass verify provision clock s).isCompleted = false) :
    ∃ last, s.limboDomains.getLast? = some last ∧ verify last = true ∧ provision last = true ∧
      ∃ j x, j + 1 < s.limboDomains.length ∧ s.limboDomains[j]? = some x ∧
        verify x = true ∧ provision x = true := by
  rw [processLimboPass_isCompleted] at h
  cases hl : s.limboDomains.getLast? with
  | none =>
    rw [List.getLast?_eq_none_iff] at hl
    rw [hl] at h
    simp [forRange, Outcome.isCompleted] at h
  | some last =>
    have hl' := hl
    rw [List.getLast?_eq_getElem?] at hl'
    refine ⟨last, rfl, ?_⟩
    by_cases hg : verify last = true ∧ provision last = true
    · refine ⟨hg.1, hg.2, ?_⟩
      by_contra hno
      have := processLimbo_loop_no_early verify provision clock s.limboDomains.length 0
        ⟨s.limboDomains, s.limboDomains.length, s.domains⟩ rfl (by simp)
        (fun j x _ hj hjx hgx => hno ⟨j, x, hj, hjx, hgx.1, hgx.2⟩)
      rw [this] at h
      exact Bool.noConfusion h
    · have := processLimbo_loop_last_bad verify provision clock last hg s.limboDomains.length 0
        ⟨s.limboDomains, s.limboDomains.length, s.domains⟩ (le_refl _) (by simp)
        (staleTail_start s.limboDomains s.domains last hl')
      rw [this] at h
      exact Bool.noConfusion h

/-- C9: one pass of processLimboDomains over n names ends in a panic exactly
when the last name verifies and provisions and a name at an index below n - 1
also verifies and provisions; it panics for two or more names that all verify
and provision; and at the panic the last record of the active collection is a
new record of the last pending name. -/
theorem processLimboPass_panics_iff (verify provision : String → Bool) (clock : Nat → Nat)
    (s : State) :
    ((processLimboPass verify provision clock s).isCompleted = false ↔
      ∃ last, s.limboDomains.getLast? = some last ∧ verify last = true ∧
        provision last = true ∧
        ∃ j x, j + 1 < s.limboDomains.length ∧ s.limboDomains[j]? = some x ∧
          verify x = true ∧ provision x = true) ∧
    (∀ s', processLimboPass verify provision clock s = .panicked s' →
      ∃ last pre t, s.limboDomains.getLast? = some last ∧
        s'.domains = s.domains ++ pre ++ [⟨last, true, t⟩]) ∧
    (2 ≤ s.limboDomains.length →
      (∀ x, x ∈ s.limboDomains → verify x = true ∧ provision x = true) →
      (processLimboPass verify provision clock s).isCompleted = false) := by
  have hback : (∃ last, s.limboDomains.getLast? = some last ∧ verify last = true ∧
        provision last = true ∧
        ∃ j x, j + 1 < s.limboDomains.length ∧ s.limboDomains[j]? = some x ∧
          verify x = true ∧ provision x = true) →
      (processLimboPass verify provision clock s).isCompleted = false := by
    rintro ⟨last, hl, hv, hp, he⟩
    obtain ⟨s', _, _, hrun, _⟩ := processLimboPass_panics_of verify provision clock s last hl hv hp he
    rw [hrun]
    rfl
  refine ⟨⟨processLimboPass_conditions_of_panic verify provision clock s, hback⟩, ?_, ?_⟩
  · intro s' hs'
    have hc : (processLimboPass verify provision clock s).isCompleted = false := by
      rw [hs']
      rfl
    obtain ⟨last, hl, hv, hp, he⟩ := processLimboPass_conditions_of_panic verify provision clock s hc
    obtain ⟨s2, pre, t, hrun, hdom⟩ :=
      processLimboPass_panics_of verify provision clock s last hl hv hp he
    rw [hs'] at hrun
    injection hrun with hrun
    subst hrun
    exact ⟨last, pre, t, hl, hdom⟩
  · intro hn hall
    apply hback
    have hne : s.limboDomains ≠ [] := by
      intro h
      rw [h] at hn
      simp at hn
    have h0 : 0 < s.limboDomains.length := by omega
    refine ⟨s.limboDomains.getLast hne, List.getLast?_eq_getLast _ hne,
      (hall _ (List.getLast_mem hne)).1, (hall _ (List.getLast_mem hne)).2,
      0, s.limboDomains[0], by omega, List.getElem?_eq_getElem h0,
      (hall _ (List.getElem_mem h0)).1, (hall _ (List.getElem_mem h0)).2⟩

/-! ## Properties of the records that a pass keeps -/

theorem checkNameserversBody_forall (verify : String → Bool) (clock : Nat → Nat)
    (P : Domain → Prop)
    (hP : ∀ d t, P d → ¬ (verify d.Name = false ∧ d.NameserversCorrect = true) →
      P { d with NameserversCorrect := verify d.Name, LastChecked := t })
    (i : Nat) (st : ActiveLoop) (h : ∀ d, d ∈ st.arr → P d) :
    ∀ d, d ∈ (checkNameserversBody verify clock i st).state.arr → P d := by
  cases hd : st.arr[i]? with
  | none =>
    simp only [checkNameserversBody, hd, Outcome.state]
    exact h
  | some d0 =>
    have hmem : d0 ∈ st.arr := List.getElem?_mem hd
    by_cases hev : verify d0.Name = false ∧ d0.NameserversCorrect = true
    · by_cases hi : i + 1 ≤ st.len
      · rw [checkNameserversBody_evict verify clock i st d0 hd hev.1 hev.2 hi]
        intro d hdm
        exact h d (mem_of_mem_removeAt _ _ _ _ hdm)
      · simp only [checkNameserversBody, hd, hev.1, hev.2, hi, Outcome.state]
        simpa using h
    · by_cases hi : i < st.len
      · rw [checkNameserversBody_keep verify clock i st d0 hd hev hi]
        intro d hdm
        rcases List.mem_or_eq_of_mem_set hdm with hold | hnew
        · exact h d hold
        · rw [hnew]
          exact hP d0 (clock i) (h d0 hmem) hev
      · have hk' : (!verify d0.Name && d0.NameserversCorrect) = false := by
          cases hv : verify d0.Name <;> cases hf : d0.NameserversCorrect <;> simp_all
        simp only [checkNameserversBody, hd, hk', hi, Outcome.state]
        simpa using h

theorem checkNameservers_loop_forall (verify : String → Bool) (clock : Nat → Nat)
    (P : Domain → Prop)
    (hP : ∀ d t, P d → ¬ (verify d.Name = false ∧ d.NameserversCorrect = true) →
      P { d with NameserversCorrect := verify d.Name, LastChecked := t }) :
    ∀ (k i : Nat) (st : ActiveLoop), (∀ d, d ∈ st.arr → P d) →
      ∀ d, d ∈ (forRange (checkNameserversBody verify clock) i k st).state.arr → P d := by
  intro k
  induction k with
  | zero =>
    intro i st h
    simpa [forRange, Outcome.state] using h
  | succ k ih =>
    intro i st h
    have hb := checkNameserversBody_forall verify clock P hP i st h
    simp only [forRange]
    cases hbody : checkNameserversBody verify clock i st with
    | completed st' =>
      rw [hbody] at hb
      exact ih (i + 1) st' hb
    | panicked st' =>
      rw [hbody] at hb
      exact hb

theorem checkNameserversPass_domains (verify : String → Bool) (clock : Nat → Nat) (s : State) :
    (checkNameserversPass verify clock s).state.domains =
      (forRange (checkNameserversBody verify clock) 0 s.domains.length
        ⟨s.domains, s.domains.length, s.removedDomains⟩).state.arr.take
      (forRange (checkNameserversBody verify clock) 0 s.domains.length
        ⟨s.domains, s.domains.length, s.removedDomains⟩).state.len := by
  unfold checkNameserversPass
  split <;> simp_all [Outcome.state, ActiveLoop.toState]

theorem checkNameserversPass_forall (verify : String → Bool) (clock : Nat → Nat)
    (P : Domain → Prop)
    (hP : ∀ d t, P d → ¬ (verify d.Name = false ∧ d.NameserversCorrect = true) →
      P { d with NameserversCorrect := verify d.Name, LastChecked := t })
    (s : State) (h : ∀ d, d ∈ s.domains → P d) :
    ∀ d, d ∈ (checkNameserversPass verify clock s).state.domains → P d := by
  intro d hd
  rw [checkNameserversPass_domains] at hd
  exact checkNameservers_loop_forall verify clock P hP s.domains.length 0
    ⟨s.domains, s.domains.length, s.removedDomains⟩ h d (List.mem_of_mem_take hd)

theorem checkNameserversPass_limboDomains (verify : String → Bool) (clock : Nat → Nat)
    (s : State) :
    (checkNameserversPass verify clock s).state.limboDomains = s.limboDomains := by
  unfold checkNameserversPass
  split <;> simp [Outcome.state, ActiveLoop.toState]

theorem keep_correct (verify : String → Bool) (d : Domain) (t : Nat)
    (hd : d.NameserversCorrect = true)
    (hk : ¬ (verify d.Name = false ∧ d.NameserversCorrect = true)) :
    ({ d with NameserversCorrect := verify d.Name, LastChecked := t } : Domain).NameserversCorrect
      = true := by
  cases hv : verify d.Name
  · exact absurd ⟨hv, hd⟩ hk
  · rfl

theorem processLimboBody_domains (verify provision : String → Bool) (clock : Nat → Nat)
    (i : Nat) (st : LimboLoop) :
    (processLimboBody verify provision clock i st).state.domains = st.domains ∨
      ∃ x, (processLimboBody verify provision clock i st).state.domains =
        st.domains ++ [⟨x, true, clock i⟩] := by
  unfold processLimboBody
  split
  · left; rfl
  · rename_i x _
    split_ifs
    · right; exact ⟨x, rfl⟩
    · right; exact ⟨x, rfl⟩
    · left; rfl
    · left; rfl

theorem processLimbo_loop_allCorrect (verify provision : String → Bool) (clock : Nat → Nat) :
    ∀ (k i : Nat) (st : LimboLoop), AllCorrect st.domains →
      AllCorrect (forRange (processLimboBody verify provision clock) i k st).state.domains := by
  intro k
  induction k with
  | zero =>
    intro i st h
    simpa [forRange, Outcome.state] using h
  | succ k ih =>
    intro i st h
    have hb : AllCorrect (processLimboBody verify provision clock i st).state.domains := by
      rcases processLimboBody_domains verify provision clock i st with h1 | ⟨x, h1⟩
      · rw [h1]; exact h
      · rw [h1]
        intro d hd
        rcases List.mem_append.mp hd with hd | hd
        · exact h d hd
        · rw [List.mem_singleton.mp hd]
    simp only [forRange]
    cases hbody : processLimboBody verify provision clock i st with
    | completed st' =>
      rw [hbody] at hb
      exact ih (i + 1) st' hb
    | panicked st' =>
      rw [hbody] at hb
      exact hb

theorem processLimboPass_domains (verify provision : String → Bool) (clock : Nat → Nat)
    (s : State) :
    (processLimboPass verify provision clock s).state.domains =
      (forRange (processLimboBody verify provision clock) 0 s.limboDomains.length
        ⟨s.limboDomains, s.limboDomains.length, s.domains⟩).state.domains := by
  unfold processLimboPass
  split <;> simp_all [Outcome.state, LimboLoop.toState]

theorem handleSubmit_domains (r : Request) (s : State) :
    (handleSubmit r s).2.domains = s.domains := by
  unfold handleSubmit
  simp only []
  split_ifs <;> rfl

theorem step_allCorrect (s s' : State) (h : AllCorrect s.domains) (hs : Step s s') :
    AllCorrect s'.domains := by
  cases hs with
  | submit r =>
    rw [handleSubmit_domains]
    exact h
  | limbo verify provision clock =>
    rw [processLimboPass_domains]
    exact processLimbo_loop_allCorrect verify provision clock _ _ _ h
  | active verify clock =>
    exact checkNameserversPass_forall verify clock (fun d => d.NameserversCorrect = true)
      (fun d t hd hk => keep_correct verify d t hd hk) s h

theorem reachable_allCorrect (s₀ s : State) (h0 : AllCorrect s₀.domains)
    (hr : Reachable s₀ s) : AllCorrect s.domains := by
  induction hr with
  | refl => exact h0
  | tail _ hstep ih => exact step_allCorrect _ _ ih hstep

/-- C10: the predicate that every active record has NameserversCorrect = true
is preserved by every operation on the in-memory state, the state reached at a
panic included: from an all-true (or empty) active collection every reachable
state is all-true, so is the state after one more operation, every exported
record has the value true, and every record that an iteration of a pass of
checkNameserversRoutine reads has flag true, so that the branch keeping an
already-false record is not taken. -/
theorem allCorrect_preserved (s₀ s : State) (h0 : AllCorrect s₀.domains)
    (hr : Reachable s₀ s) :
    AllCorrect s.domains ∧
    (∀ s', Step s s' → AllCorrect s'.domains) ∧
    (∀ d, d ∈ handleDomainsJSON s → d.NameserversCorrect = true) ∧
    (∀ (verify : String → Bool) (clock : Nat → Nat) (k : Nat) (d : Domain),
      (forRange (checkNameserversBody verify clock) 0 k
        ⟨s.domains, s.domains.length, s.removedDomains⟩).state.arr[k]? = some d →
      d.NameserversCorrect = true) := by
  have hs := reachable_allCorrect s₀ s h0 hr
  refine ⟨hs, fun s' hstep => step_allCorrect s s' hs hstep, hs, ?_⟩
  intro verify clock k d hd
  exact checkNameservers_loop_forall verify clock (fun d => d.NameserversCorrect = true)
    (fun d t hd hk => keep_correct verify d t hd hk) k 0
    ⟨s.domains, s.domains.length, s.removedDomains⟩ hs d (List.getElem?_mem hd)

/-- Witness of C10: the state after the submission of example.com and one pass
of processLimboDomains in which it verifies and provisions. -/
theorem allCorrect_preserved_witness :
    AllCorrect emptyState.domains ∧
      Reachable emptyState ⟨[⟨"example.com", true, 0⟩], [], []⟩ ∧
      AllCorrect [⟨"example.com", true, 0⟩] :=
  have h0 : AllCorrect emptyState.domains := by
    intro d hd
    simp [emptyState] at hd
  have hr : Reachable emptyState ⟨[⟨"example.com", true, 0⟩], [], []⟩ := by
    have h1 := Step.submit ⟨"POST", false, [("domain", "example.com")]⟩ emptyState
    have h2 := Step.limbo (fun _ => true) (fun _ => true) (fun i => i)
      (handleSubmit ⟨"POST", false, [("domain", "example.com")]⟩ emptyState).2
    have e : (processLimboPass (fun _ => true) (fun _ => true) (fun i => i)
        (handleSubmit ⟨"POST", false, [("domain", "example.com")]⟩ emptyState).2).state =
        ⟨[⟨"example.com", true, 0⟩], [], []⟩ := by decide
    rw [e] at h2
    exact Relation.ReflTransGen.tail (Relation.ReflTransGen.single h1) h2
  ⟨h0, hr, (allCorrect_preserved emptyState _ h0 hr).1⟩

/-! ## Pending and active names -/

/-- Counterexample to C4: example.com is submitted, verifies and provisions in
one pass of processLimboDomains, and is submitted again: it is then pending
and active at the same time. -/
theorem pendingActiveDisjoint_counterexample :
    ¬ ∀ s, Reachable emptyState s → PendingActiveDisjoint s := by
  intro h
  have h1 := Step.submit ⟨"POST", false, [("domain", "example.com")]⟩ emptyState
  have h2 := Step.limbo (fun _ => true) (fun _ => true) (fun i => i)
    (handleSubmit ⟨"POST", false, [("domain", "example.com")]⟩ emptyState).2
  have h3 := Step.submit ⟨"POST", false, [("domain", "example.com")]⟩
    (processLimboPass (fun _ => true) (fun _ => true) (fun i => i)
      (handleSubmit ⟨"POST", false, [("domain", "example.com")]⟩ emptyState).2).state
  have e : (handleSubmit ⟨"POST", false, [("domain", "example.com")]⟩
      (processLimboPass (fun _ => true) (fun _ => true) (fun i => i)
        (handleSubmit ⟨"POST", false, [("domain", "example.com")]⟩ emptyState).2).state).2 =
      ⟨[⟨"example.com", true, 0⟩], ["example.com"], []⟩ := by decide
  rw [e] at h3
  have hr : Reachable emptyState ⟨[⟨"example.com", true, 0⟩], ["example.com"], []⟩ :=
    Relation.ReflTransGen.tail (Relation.ReflTransGen.tail (Relation.ReflTransGen.single h1) h2) h3
  exact h _ hr "example.com" (by simp) (by simp [State.activeNames])

theorem take_eq_take_cons_take {α : Type} (arr : List α) (i len : Nat) (x : α)
    (hi : i + 1 ≤ len) (hx : arr[i]? = some x) :
    arr.take len = arr.take i ++ x :: (arr.drop (i + 1)).take (len - (i + 1)) := by
  induction arr generalizing i len with
  | nil => simp at hx
  | cons a arr ih =>
    obtain ⟨len', rfl⟩ : ∃ len', len = len' + 1 := ⟨len - 1, by omega⟩
    cases i with
    | zero =>
      simp at hx
      simp [hx]
    | succ i =>
      simp at hx
      have := ih i len' (by omega) hx
      simp [this]

theorem processLimboBody_completed (verify provision : String → Bool) (clock : Nat → Nat)
    (i : Nat) (st st' : LimboLoop)
    (h : processLimboBody verify provision clock i st = .completed st') :
    st' = st ∨ ∃ x, st.arr[i]? = some x ∧ i + 1 ≤ st.len ∧
      st' = { arr := removeAt st.arr i st.len, len := st.len - 1,
              domains := st.domains ++ [⟨x, true, clock i⟩] } := by
  unfold processLimboBody at h
  split at h
  · exact Outcome.noConfusion h
  · rename_i x hx
    split_ifs at h with h1 h2 h3
    · right
      injection h with h
      exact ⟨x, hx, h3, h.symm⟩
    · left
      injection h with h
      exact h.symm
    · left
      injection h with h
      exact h.symm

theorem processLimbo_loop_disjoint (verify provision : String → Bool) (clock : Nat → Nat) :
    ∀ (k i : Nat) (st st' : LimboLoop),
      forRange (processLimboBody verify provision clock) i k st = .completed st' →
      st.len ≤ st.arr.length → (st.arr.take st.len).Nodup →
      (∀ x, x ∈ st.arr.take st.len → x ∉ st.domains.map (fun d => d.Name)) →
      (st'.arr.take st'.len).Nodup ∧
        ∀ x, x ∈ st'.arr.take st'.len → x ∉ st'.domains.map (fun d => d.Name) := by
  intro k
  induction k with
  | zero =>
    intro i st st' h _ hn hd
    simp only [forRange] at h
    injection h with h
    subst h
    exact ⟨hn, hd⟩
  | succ k ih =>
    intro i st st' h hl hn hd
    simp only [forRange] at h
    cases hbody : processLimboBody verify provision clock i st with
    | panicked st1 =>
      rw [hbody] at h
      exact Outcome.noConfusion h
    | completed st1 =>
      rw [hbody] at h
      rcases processLimboBody_completed verify provision clock i st st1 hbody with
        rfl | ⟨x, hx, hi, rfl⟩
      · exact ih (i + 1) st1 st' h hl hn hd
      · have hsplit := take_eq_take_cons_take st.arr i st.len x hi hx
        have hlen := removeAt_length st.arr i st.len hi hl
        have htake := removeAt_take st.arr i st.len hi hl
        rw [hsplit] at hn hd
        have hn' := List.nodup_middle.mp hn
        rw [List.nodup_cons] at hn'
        refine ih (i + 1) _ st' h (by simp only [hlen]; omega) ?_ ?_
        · simp only [htake]
          exact hn'.2
        · simp only [htake]
          intro y hy
          have hyold : y ∉ st.domains.map (fun d => d.Name) := by
            apply hd y
            rcases List.mem_append.mp hy with hy | hy
            · exact List.mem_append.mpr (Or.inl hy)
            · exact List.mem_append.mpr (Or.inr (List.mem_cons_of_mem _ hy))
          have hyx : y ≠ x := fun hyx => hn'.1 (hyx ▸ hy)
          simp only [List.map_append, List.map_cons, List.map_nil, List.mem_append,
            List.mem_singleton, not_or]
          exact ⟨hyold, hyx⟩

theorem processLimboPass_completed (verify provision : String → Bool) (clock : Nat → Nat)
    (s s' : State) (h : processLimboPass verify provision clock s = .completed s') :
    ∃ st, forRange (processLimboBody verify provision clock) 0 s.limboDomains.length
      ⟨s.limboDomains, s.limboDomains.length, s.domains⟩ = .completed st ∧
      s' = st.toState s := by
  unfold processLimboPass at h
  cases hrun : forRange (processLimboBody verify provision clock) 0 s.limboDomains.length
    ⟨s.limboDomains, s.limboDomains.length, s.domains⟩ with
  | completed st =>
    rw [hrun] at h
    injection h with h
    exact ⟨st, rfl, h.symm⟩
  | panicked st =>
    rw [hrun] at h
    exact Outcome.noConfusion h

theorem freshStep_disjoint (s s' : State)
    (h : s.limboDomains.Nodup ∧ PendingActiveDisjoint s) (hs : FreshStep s s') :
    s'.limboDomains.Nodup ∧ PendingActiveDisjoint s' := by
  obtain ⟨hn, hd⟩ := h
  cases hs with
  | submit r _ hp ha =>
    unfold handleSubmit
    simp only []
    split_ifs
    · exact ⟨hn, hd⟩
    · exact ⟨hn, hd⟩
    · constructor
      · show (s.limboDomains ++ [r.FormValue "domain"]).Nodup
        rw [List.nodup_append]
        refine ⟨hn, List.nodup_singleton _, ?_⟩
        intro a ha1 ha2
        rw [List.mem_singleton.mp ha2] at ha1
        exact hp ha1
      · intro x hx
        have hx' : x ∈ s.limboDomains ++ [r.FormValue "domain"] := hx
        show x ∉ s.activeNames
        rcases List.mem_append.mp hx' with hx' | hx'
        · exact hd x hx'
        · rw [List.mem_singleton.mp hx']
          exact ha
    · exact ⟨hn, hd⟩
  | limbo verify provision clock _ _ hrun =>
    obtain ⟨st, hloop, rfl⟩ := processLimboPass_completed verify provision clock s s' hrun
    have := processLimbo_loop_disjoint verify provision clock s.limboDomains.length 0
      ⟨s.limboDomains, s.limboDomains.length, s.domains⟩ st hloop (le_refl _)
      (by simpa using hn)
      (by intro x hx; simp only [List.take_length] at hx; exact hd x hx)
    exact this
  | active verify clock =>
    have hl : (checkNameserversPass verify clock s).state.limboDomains = s.limboDomains :=
      checkNameserversPass_limboDomains verify clock s
    have hsub : ∀ d, d ∈ (checkNameserversPass verify clock s).state.domains →
        d.Name ∈ s.activeNames :=
      checkNameserversPass_forall verify clock (fun d => d.Name ∈ s.activeNames)
        (fun d t hd _ => hd) s
        (fun d hd => List.mem_map.mpr ⟨d, hd, rfl⟩)
    constructor
    · rw [hl]
      exact hn
    · intro x hx hx'
      rw [hl] at hx
      obtain ⟨d, hd1, hd2⟩ := List.mem_map.mp hx'
      exact hd x hx (hd2 ▸ hsub d hd1)

/-- C4, amended: in every state reached from three empty collections by
submissions of names that are at that time neither pending nor active, by
passes of processLimboDomains that run to completion and by passes of
checkNameserversRoutine, under any verification and provisioning outcomes, no
name is at the same time pending and the name of an active record. -/
theorem pendingActiveDisjoint_fresh (s : State) (hr : FreshReachable emptyState s) :
    PendingActiveDisjoint s := by
  have h : s.limboDomains.Nodup ∧ PendingActiveDisjoint s := by
    induction hr with
    | refl =>
      constructor
      · exact List.nodup_nil
      · intro x hx
        simp [emptyState] at hx
    | tail _ hstep ih => exact freshStep_disjoint _ _ ih hstep
  exact h.2

/-- Witness of C4, amended: example.com and example.org are submitted, then
one pass of processLimboDomains in which only example.org verifies runs to
completion. -/
theorem pendingActiveDisjoint_fresh_witness :
    FreshReachable emptyState ⟨[⟨"example.org", true, 1⟩], ["example.com"], []⟩ ∧
      PendingActiveDisjoint ⟨[⟨"example.org", true, 1⟩], ["example.com"], []⟩ :=
  have hr : FreshReachable emptyState ⟨[⟨"example.org", true, 1⟩], ["example.com"], []⟩ := by
    have h1 : FreshStep emptyState ⟨[], ["example.com"], []⟩ :=
      FreshStep.submit ⟨"POST", false, [("domain", "example.com")]⟩ emptyState
        (by decide) (by decide)
    have h2 : FreshStep ⟨[], ["example.com"], []⟩ ⟨[], ["example.com", "example.org"], []⟩ :=
      FreshStep.submit ⟨"POST", false, [("domain", "example.org")]⟩ ⟨[], ["example.com"], []⟩
        (by decide) (by decide)
    have h3 : FreshStep ⟨[], ["example.com", "example.org"], []⟩
        ⟨[⟨"example.org", true, 1⟩], ["example.com"], []⟩ :=
      FreshStep.limbo (fun x => x == "example.org") (fun _ => true) (fun i => i) _ _
        (by decide)
    exact Relation.ReflTransGen.tail
      (Relation.ReflTransGen.tail (Relation.ReflTransGen.single h1) h2) h3
  ⟨hr, pendingActiveDisjoint_fresh _ hr⟩

/-- Two distinct pending names that both verify and provision: the pass of
processLimboDomains panics, and in the state reached at the panic b.example is
pending and active.  This is why the passes of processLimboDomains of a run
without resubmission are those that run to completion. -/
theorem processLimboPass_panic_overlap :
    processLimboPass (fun _ => true) (fun _ => true) (fun i => i)
        ⟨[], ["a.example", "b.example"], []⟩ =
      .panicked ⟨[⟨"a.example", true, 0⟩, ⟨"b.example", true, 1⟩], ["b.example"], []⟩ := by
  decide

/-! ## The two passes against their one-pass description -/

/-- C2, the code at the failing input: two active records with flag true whose
names both fail verification.  The pass evicts the first record, reads the
second from the stale cell, appends its name to the removed collection and
panics on `domains[i+1:]`; example.org is still an active record. -/
theorem checkNameserversPass_failing_input :
    checkNameserversPass (fun _ => false) (fun i => i)
        ⟨[⟨"example.com", true, 0⟩, ⟨"example.org", true, 0⟩], [], []⟩ =
      .panicked ⟨[⟨"example.org", true, 0⟩], [], ["example.com", "example.org"]⟩ := by
  decide

/-- C3, the code at the failing input: three pending names of which the first
two verify and provision.  The pass runs to completion, adds a record for
a.example only and leaves b.example pending: b.example moved into the cell the
loop had already passed. -/
theorem processLimboPass_failing_input :
    processLimboPass (fun x => x != "c.example") (fun _ => true) (fun i => i)
        ⟨[], ["a.example", "b.example", "c.example"], []⟩ =
      .completed ⟨[⟨"a.example", true, 0⟩], ["b.example", "c.example"], []⟩ := by
  decide

end Domainomatic
